import Mathlib

/-!
# Verification of the Black-Scholes implied-volatility solver (`project.py`)

Shallow embedding of the pricing model (`d`, `call`) and the multi-start
Newton-Raphson implied-volatility solver (`call_iv`) from `src/project.py`.

The Python source computes with IEEE floats and the SciPy normal
distribution; the embedding idealizes float arithmetic as exact real
arithmetic, `numpy.log` as `Real.log`, `math.sqrt`/`math.exp` as
`Real.sqrt`/`Real.exp`, and `scipy.stats.norm.cdf`/`norm.pdf` as the
integral form of the standard normal CDF and its density.  Numeric
literals of the source (`0.005`, `0.000001`, `100`, `0.001`) become the
corresponding exact rationals.

The solver's inner `while` loop has no iteration bound in the source, so
it is embedded with explicit fuel: `LoopResult.timeout` means the loop
was still running when the fuel ran out (the model then makes no claim
about the Python program's behaviour), while `LoopResult.success` and
`LoopResult.failure` are genuine outcomes of the Python loop, and are
stable under adding more fuel (`newtonLoop_fuel_mono` below).
-/

noncomputable section

namespace ImpliedVol

open MeasureTheory

/-- Standard normal probability density function, `scipy.stats.norm.pdf`. -/
def normPdf (x : ℝ) : ℝ := Real.exp (-(x ^ 2) / 2) / Real.sqrt (2 * Real.pi)

/-- Standard normal cumulative distribution function, `scipy.stats.norm.cdf`. -/
def normCdf (x : ℝ) : ℝ := ∫ t in Set.Iic x, normPdf t

/-- `d(P, X, T, r, s)` from `project.py`: returns the pair `(d1, d2)` with
`d1 = (log(P/X) + (r + s^2/2)*T) / (s*sqrt(T))` and `d2 = d1 - s*sqrt(T)`. -/
def d (P X T r s : ℝ) : ℝ × ℝ :=
  ((Real.log (P / X) + (r + s ^ 2 / 2) * T) / (s * Real.sqrt T),
   (Real.log (P / X) + (r + s ^ 2 / 2) * T) / (s * Real.sqrt T) - s * Real.sqrt T)

/-- `call(P, X, T, r, s)` from `project.py`: the Black-Scholes call price
`P*norm.cdf(d1) - X*exp(-r*T)*norm.cdf(d2)`. -/
def call (P X T r s : ℝ) : ℝ :=
  P * normCdf (d P X T r s).1 - X * Real.exp (-r * T) * normCdf (d P X T r s).2

/-- The vega expression computed inside the solver loop of `call_iv`:
`vega = P * norm.pdf(d1) * sqrt(T)`. -/
def vega (P X T r s : ℝ) : ℝ := P * normPdf (d P X T r s).1 * Real.sqrt T

/-- `good_bound = 0.000001` from `call_iv` (convergence tolerance). -/
def good_bound : ℝ := 0.000001

/-- `bad_bound = 100` from `call_iv` (explosion bound). -/
def bad_bound : ℝ := 100

/-- The guess list of `call_iv`: `[x * 0.005 for x in range(10, 300, 5)]`.
`range(10, 300, 5)` is `10, 15, ..., 295`, i.e. 58 values. -/
def s_list : List ℝ := (List.range' 10 58 5).map (fun x : ℕ => (x : ℝ) * 0.005)

/-- Outcome of one starting guess's Newton iteration in `call_iv`:
`success s` models reaching the loop guard with `err < good_bound`
(`success = True`, `return s`); `failure` models a `break` out of the
loop (`success = False`); `timeout` means the fuel was exhausted with
the loop still running. -/
inductive LoopResult where
  | success (s : ℝ)
  | failure
  | timeout
  deriving DecidableEq

/-- The inner `while` loop of `call_iv`, with explicit fuel.  State is
`(s, err)`; the loop is entered with `err = 1`.  Each fuel step is one
iteration of the Python loop body:
`while (err >= good_bound): if (err >= bad_bound or s <= 0): break;
diff = call(...) - C; vega = P*norm.pdf(d1)*sqrt(T);
if vega < 0.001: break; s = s - diff/vega; err = abs(diff)`. -/
def newtonLoop (P X T r C : ℝ) : ℕ → ℝ → ℝ → LoopResult
  | 0, s, err => if err < good_bound then .success s else .timeout
  | fuel + 1, s, err =>
    if err < good_bound then .success s
    else if bad_bound ≤ err ∨ s ≤ 0 then .failure
    else if vega P X T r s < 0.001 then .failure
    else
      newtonLoop P X T r C fuel
        (s - (call P X T r s - C) / vega P X T r s) |call P X T r s - C|

/-- The guess-scanning `for s in s_list` loop of `call_iv`: run the
Newton loop on each guess in order; return the first successful value,
skip failed guesses, and return `0` when the list is exhausted.  A
`timeout` of any guess makes the overall result `none` (the model
cannot determine the Python program's return value with this fuel). -/
def tryGuesses (P X T r C : ℝ) (fuel : ℕ) : List ℝ → Option ℝ
  | [] => some 0
  | g :: rest =>
    match newtonLoop P X T r C fuel g 1 with
    | .success s => some s
    | .failure => tryGuesses P X T r C fuel rest
    | .timeout => none

/-- `call_iv(P, X, T, r, C)` from `project.py`, with explicit fuel for the
inner loops.  `some v` means the Python function returns `v`. -/
def call_iv (P X T r C : ℝ) (fuel : ℕ) : Option ℝ :=
  tryGuesses P X T r C fuel s_list

/-! ## Basic unfolding lemmas -/

theorem newtonLoop_zero (P X T r C s err : ℝ) :
    newtonLoop P X T r C 0 s err =
      if err < good_bound then .success s else .timeout := rfl

theorem newtonLoop_succ (P X T r C s err : ℝ) (fuel : ℕ) :
    newtonLoop P X T r C (fuel + 1) s err =
      if err < good_bound then .success s
      else if bad_bound ≤ err ∨ s ≤ 0 then .failure
      else if vega P X T r s < 0.001 then .failure
      else
        newtonLoop P X T r C fuel
          (s - (call P X T r s - C) / vega P X T r s) |call P X T r s - C| := rfl

/-- If the loop guard already fails (`err < good_bound`), the loop exits at
once with success, whatever the fuel. -/
theorem newtonLoop_of_lt_good (P X T r C s err : ℝ) (fuel : ℕ)
    (h : err < good_bound) : newtonLoop P X T r C fuel s err = .success s := by
  cases fuel with
  | zero => simp [newtonLoop_zero, h]
  | succ n => simp [newtonLoop_succ, h]

/-- A divergence break: `err >= bad_bound or s <= 0` aborts the guess. -/
theorem newtonLoop_fail_of_bad (P X T r C s err : ℝ) (fuel : ℕ)
    (hg : good_bound ≤ err) (hb : bad_bound ≤ err ∨ s ≤ 0) :
    newtonLoop P X T r C (fuel + 1) s err = .failure := by
  rw [newtonLoop_succ, if_neg (not_lt.2 hg), if_pos hb]

/-- A flat-vega break: `vega < 0.001` aborts the guess. -/
theorem newtonLoop_fail_of_vega (P X T r C s err : ℝ) (fuel : ℕ)
    (hg : good_bound ≤ err) (hb : ¬(bad_bound ≤ err ∨ s ≤ 0))
    (hv : vega P X T r s < 0.001) :
    newtonLoop P X T r C (fuel + 1) s err = .failure := by
  rw [newtonLoop_succ, if_neg (not_lt.2 hg), if_neg hb, if_pos hv]

/-- When all checks pass, the loop performs one Newton update. -/
theorem newtonLoop_step (P X T r C s err : ℝ) (fuel : ℕ)
    (hg : good_bound ≤ err) (hb : ¬(bad_bound ≤ err ∨ s ≤ 0))
    (hv : ¬ vega P X T r s < 0.001) :
    newtonLoop P X T r C (fuel + 1) s err =
      newtonLoop P X T r C fuel
        (s - (call P X T r s - C) / vega P X T r s) |call P X T r s - C| := by
  rw [newtonLoop_succ, if_neg (not_lt.2 hg), if_neg hb, if_neg hv]

/-! ## Bounds on the normal density -/

theorem sqrt_two_pi_pos : 0 < Real.sqrt (2 * Real.pi) :=
  Real.sqrt_pos.2 (by positivity)

theorem sqrt_two_pi_le_three : Real.sqrt (2 * Real.pi) ≤ 3 := by
  have h9 : (2 : ℝ) * Real.pi ≤ 9 := by nlinarith [Real.pi_le_four]
  calc Real.sqrt (2 * Real.pi) ≤ Real.sqrt 9 := Real.sqrt_le_sqrt h9
    _ = 3 := by
        rw [show (9 : ℝ) = 3 ^ 2 by norm_num, Real.sqrt_sq (by norm_num : (0:ℝ) ≤ 3)]

theorem two_le_sqrt_two_pi : 2 ≤ Real.sqrt (2 * Real.pi) := by
  have h4 : (4 : ℝ) ≤ 2 * Real.pi := by nlinarith [Real.pi_gt_three]
  calc (2 : ℝ) = Real.sqrt 4 := by
        rw [show (4 : ℝ) = 2 ^ 2 by norm_num, Real.sqrt_sq (by norm_num : (0:ℝ) ≤ 2)]
    _ ≤ Real.sqrt (2 * Real.pi) := Real.sqrt_le_sqrt h4

theorem normPdf_pos (x : ℝ) : 0 < normPdf x :=
  div_pos (Real.exp_pos _) sqrt_two_pi_pos

theorem normPdf_le_half (x : ℝ) : normPdf x ≤ 1 / 2 := by
  have h1 : Real.exp (-(x ^ 2) / 2) ≤ 1 :=
    Real.exp_le_one_iff.2 (by nlinarith [sq_nonneg x])
  have h2 := two_le_sqrt_two_pi
  have h3 := sqrt_two_pi_pos
  rw [normPdf, div_le_div_iff₀ h3 (by norm_num : (0:ℝ) < 2)]
  nlinarith

theorem normPdf_ge (x : ℝ) (hx : |x| ≤ 1) : 1 / 9 ≤ normPdf x := by
  have hx1 : x ^ 2 ≤ 1 := by
    have h := abs_le.1 hx
    nlinarith [h.1, h.2]
  have h1 : Real.exp (-1 : ℝ) ≤ Real.exp (-(x ^ 2) / 2) :=
    Real.exp_le_exp.2 (by nlinarith)
  have h2 : (1 : ℝ) / 3 ≤ Real.exp (-1 : ℝ) := by
    have he : Real.exp 1 ≤ 3 :=
      le_of_lt (lt_trans Real.exp_one_lt_d9 (by norm_num))
    have hepos : (0 : ℝ) < Real.exp 1 := Real.exp_pos 1
    rw [Real.exp_neg, ← one_div,
      div_le_div_iff₀ (by norm_num : (0:ℝ) < 3) hepos]
    nlinarith
  have h3 := sqrt_two_pi_le_three
  have h4 := sqrt_two_pi_pos
  rw [normPdf, le_div_iff₀ h4]
  nlinarith

/-! ## Evaluating vega -/

theorem vega_def (P X T r s : ℝ) :
    vega P X T r s = P * normPdf ((d P X T r s).1) * Real.sqrt T := rfl

/-- At `X = P`, `T = 1`, `r = 0` the standardized term `d1` is just `s / 2`. -/
theorem d1_atm (P s : ℝ) (hP : P ≠ 0) (hs : s ≠ 0) : (d P P 1 0 s).1 = s / 2 := by
  simp only [d]
  rw [div_self hP, Real.log_one, Real.sqrt_one]
  field_simp
  ring

/-- Vega at `X = P`, `T = 1`, `r = 0` is `P * normPdf (s / 2)`. -/
theorem vega_atm (P s : ℝ) (hP : P ≠ 0) (hs : s ≠ 0) :
    vega P P 1 0 s = P * normPdf (s / 2) := by
  rw [vega_def, d1_atm P s hP hs, Real.sqrt_one, mul_one]

/-- Vega passes the `0.001` check at-the-money when `P ≥ 1` and `|s| ≤ 2`. -/
theorem vega_atm_not_small (P s : ℝ) (hP : 1 ≤ P) (hs : s ≠ 0) (hs2 : |s| ≤ 2) :
    ¬ vega P P 1 0 s < 0.001 := by
  rw [vega_atm P s (by linarith) hs, not_lt]
  have h1 : 1 / 9 ≤ normPdf (s / 2) := by
    apply normPdf_ge
    rw [abs_div]
    rw [abs_of_nonneg (by norm_num : (0:ℝ) ≤ 2)] at *
    rw [div_le_one (by norm_num : (0:ℝ) < 2)]
    exact hs2
  nlinarith [normPdf_pos (s / 2)]

/-- Vega fails the `0.001` check whenever `P * sqrt T` is tiny (e.g. a
near-worthless underlying): `vega ≤ P * (1/2) * sqrt T`. -/
theorem vega_small (P X T r s : ℝ) (h : P * Real.sqrt T < 1 / 500) :
    vega P X T r s < 0.001 := by
  have h1 := normPdf_le_half ((d P X T r s).1)
  have h2 := normPdf_pos ((d P X T r s).1)
  have h3 : (0 : ℝ) ≤ Real.sqrt T := Real.sqrt_nonneg T
  rw [vega_def]
  nlinarith

/-- Convergence on the model's own price: when the observed price is
exactly `call P X T r s` and the guess is `s` itself, the first iteration
computes `diff = 0`, the update leaves `s` unchanged, and the loop exits
successfully with `s` (provided `s > 0` and the vega check passes). -/
theorem newtonLoop_exact (P X T r s : ℝ) (fuel : ℕ) (hs : 0 < s)
    (hv : ¬ vega P X T r s < 0.001) :
    newtonLoop P X T r (call P X T r s) (fuel + 1) s 1 = .success s := by
  rw [newtonLoop_step P X T r (call P X T r s) s 1 fuel
      (by norm_num [good_bound])
      (by
        rintro (h1 | h2)
        · rw [bad_bound] at h1; linarith
        · linarith)
      hv]
  rw [sub_self, zero_div, sub_zero, abs_zero]
  exact newtonLoop_of_lt_good P X T r (call P X T r s) s 0 fuel
    (by norm_num [good_bound])

/-- Genuine loop outcomes (success/failure) are stable under extra fuel:
`timeout` is the only fuel-sensitive result, so a `success` or `failure`
at some fuel is the Python loop's actual behaviour. -/
theorem newtonLoop_fuel_mono (P X T r C : ℝ) :
    ∀ fuel s err res, res ≠ LoopResult.timeout →
      newtonLoop P X T r C fuel s err = res →
      newtonLoop P X T r C (fuel + 1) s err = res := by
  intro fuel
  induction fuel with
  | zero =>
    intro s err res hne h
    rw [newtonLoop_zero] at h
    by_cases hc : err < good_bound
    · rw [if_pos hc] at h
      rw [newtonLoop_succ, if_pos hc]
      exact h
    · rw [if_neg hc] at h
      exact absurd h.symm hne
  | succ n ih =>
    intro s err res hne h
    rw [newtonLoop_succ] at h
    by_cases hc : err < good_bound
    · rw [newtonLoop_succ, if_pos hc]
      rw [if_pos hc] at h
      exact h
    · by_cases hb : bad_bound ≤ err ∨ s ≤ 0
      · rw [if_neg hc, if_pos hb] at h
        rw [newtonLoop_succ, if_neg hc, if_pos hb]
        exact h
      · by_cases hv : vega P X T r s < 0.001
        · rw [if_neg hc, if_neg hb, if_pos hv] at h
          rw [newtonLoop_succ, if_neg hc, if_neg hb, if_pos hv]
          exact h
        · rw [if_neg hc, if_neg hb, if_neg hv] at h
          rw [newtonLoop_succ, if_neg hc, if_neg hb, if_neg hv]
          exact ih _ _ res hne h

/-! ## The guess-scanning loop -/

theorem tryGuesses_nil (P X T r C : ℝ) (fuel : ℕ) :
    tryGuesses P X T r C fuel [] = some 0 := rfl

theorem tryGuesses_cons_success (P X T r C g v : ℝ) (fuel : ℕ) (rest : List ℝ)
    (h : newtonLoop P X T r C fuel g 1 = .success v) :
    tryGuesses P X T r C fuel (g :: rest) = some v := by
  simp [tryGuesses, h]

theorem tryGuesses_cons_failure (P X T r C g : ℝ) (fuel : ℕ) (rest : List ℝ)
    (h : newtonLoop P X T r C fuel g 1 = .failure) :
    tryGuesses P X T r C fuel (g :: rest) = tryGuesses P X T r C fuel rest := by
  simp [tryGuesses, h]

/-- If every guess's loop diverges, the scan falls off the end of the list
and returns the sentinel `0`. -/
theorem tryGuesses_all_failure (P X T r C : ℝ) (fuel : ℕ) :
    ∀ L : List ℝ, (∀ g ∈ L, newtonLoop P X T r C fuel g 1 = .failure) →
      tryGuesses P X T r C fuel L = some 0 := by
  intro L
  induction L with
  | nil => intro _; rfl
  | cons g rest ih =>
    intro h
    rw [tryGuesses_cons_failure P X T r C g fuel rest (h g (List.mem_cons_self g rest))]
    exact ih fun g' hg' => h g' (List.mem_cons_of_mem g hg')

/-- The scan returns the value of the first guess whose loop converges,
given that all earlier guesses' loops diverge. -/
theorem tryGuesses_first_success (P X T r C : ℝ) (fuel : ℕ) :
    ∀ (i : ℕ) (L : List ℝ) (g v : ℝ), L[i]? = some g →
      (∀ j, j < i → ∀ g', L[j]? = some g' →
        newtonLoop P X T r C fuel g' 1 = .failure) →
      newtonLoop P X T r C fuel g 1 = .success v →
      tryGuesses P X T r C fuel L = some v := by
  intro i
  induction i with
  | zero =>
    intro L g v hget _ hsucc
    cases L with
    | nil => simp at hget
    | cons a rest =>
      simp only [List.getElem?_cons_zero, Option.some.injEq] at hget
      subst hget
      exact tryGuesses_cons_success P X T r C a v fuel rest hsucc
  | succ n ih =>
    intro L g v hget hfail hsucc
    cases L with
    | nil => simp at hget
    | cons a rest =>
      have ha : newtonLoop P X T r C fuel a 1 = .failure :=
        hfail 0 (Nat.succ_pos n) a (by simp)
      rw [tryGuesses_cons_failure P X T r C a fuel rest ha]
      refine ih rest g v (by simpa using hget) ?_ hsucc
      intro j hj g' hg'
      exact hfail (j + 1) (Nat.succ_lt_succ hj) g' (by simpa using hg')

/-! ## The guess list -/

theorem s_list_length : s_list.length = 58 := by
  rw [s_list, List.length_map, List.length_range']

theorem s_list_getElem? (i : ℕ) (h : i < 58) :
    s_list[i]? = some (0.05 + 0.025 * (i : ℝ)) := by
  rw [s_list, List.getElem?_map, List.getElem?_range' _ _ h]
  simp only [Option.map_some']
  push_cast
  ring_nf

/-- Every guess in the list is at least `0.05`; in particular positive. -/
theorem s_list_ge (g : ℝ) (hg : g ∈ s_list) : 0.05 ≤ g := by
  rw [s_list] at hg
  obtain ⟨x, hx, rfl⟩ := List.mem_map.1 hg
  obtain ⟨j, hj, rfl⟩ := List.mem_range'.1 hx
  have h10 : (10 : ℝ) ≤ ((10 + 5 * j : ℕ) : ℝ) := by
    push_cast
    linarith [Nat.cast_nonneg (α := ℝ) j]
  nlinarith

theorem s_list_pos (g : ℝ) (hg : g ∈ s_list) : 0 < g :=
  lt_of_lt_of_le (by norm_num) (s_list_ge g hg)

/-! ## Shape of a successful exit

The loop tests `err = |diff|` only at the top of the next iteration, after
`s` has already been updated.  So a success always returns the value one
Newton update past the candidate at which the tolerance was met. -/

/-- Every successful exit of the loop (entered with `err ≥ good_bound`)
returns `s' - (call(s') - C) / vega(s')` for some candidate `s' > 0` with
`|call(s') - C| < good_bound` and `vega(s') ≥ 0.001`. -/
theorem newtonLoop_success_shape (P X T r C : ℝ) :
    ∀ (fuel : ℕ) (s err v : ℝ), good_bound ≤ err →
      newtonLoop P X T r C fuel s err = .success v →
      ∃ s', 0 < s' ∧ |call P X T r s' - C| < good_bound ∧
        ¬ vega P X T r s' < 0.001 ∧
        v = s' - (call P X T r s' - C) / vega P X T r s' := by
  intro fuel
  induction fuel with
  | zero =>
    intro s err v hg h
    rw [newtonLoop_zero, if_neg (not_lt.2 hg)] at h
    simp at h
  | succ n ih =>
    intro s err v hg h
    rw [newtonLoop_succ, if_neg (not_lt.2 hg)] at h
    by_cases hb : bad_bound ≤ err ∨ s ≤ 0
    · rw [if_pos hb] at h
      simp at h
    · rw [if_neg hb] at h
      by_cases hv : vega P X T r s < 0.001
      · rw [if_pos hv] at h
        simp at h
      · rw [if_neg hv] at h
        by_cases hd : |call P X T r s - C| < good_bound
        · rw [newtonLoop_of_lt_good _ _ _ _ _ _ _ _ hd] at h
          have hs : 0 < s := by
            push_neg at hb
            exact hb.2
          refine ⟨s, hs, hd, hv, ?_⟩
          simp only [LoopResult.success.injEq] at h
          exact h.symm
        · exact ih _ _ v (not_lt.1 hd) h

/-! ## Instrumentation: the pricing-model invocations and divisions

`newtonLoopCalls` records, iteration by iteration, the volatility
arguments at which the loop body invokes `call`/`d`/`norm.pdf` (first
component) and the vega values it divides by (second component). -/

def newtonLoopCalls (P X T r C : ℝ) : ℕ → ℝ → ℝ → List ℝ × List ℝ
  | 0, _, _ => ([], [])
  | fuel + 1, s, err =>
    if err < good_bound then ([], [])
    else if bad_bound ≤ err ∨ s ≤ 0 then ([], [])
    else if vega P X T r s < 0.001 then ([s], [])
    else
      (s :: (newtonLoopCalls P X T r C fuel
          (s - (call P X T r s - C) / vega P X T r s) |call P X T r s - C|).1,
       vega P X T r s :: (newtonLoopCalls P X T r C fuel
          (s - (call P X T r s - C) / vega P X T r s) |call P X T r s - C|).2)

/-- Invocation record of the whole guess scan. -/
def tryGuessesCalls (P X T r C : ℝ) (fuel : ℕ) : List ℝ → List ℝ × List ℝ
  | [] => ([], [])
  | g :: rest =>
    match newtonLoop P X T r C fuel g 1 with
    | .failure =>
      ((newtonLoopCalls P X T r C fuel g 1).1 ++
          (tryGuessesCalls P X T r C fuel rest).1,
       (newtonLoopCalls P X T r C fuel g 1).2 ++
          (tryGuessesCalls P X T r C fuel rest).2)
    | _ => newtonLoopCalls P X T r C fuel g 1

/-- Invocation record of `call_iv`. -/
def call_ivCalls (P X T r C : ℝ) (fuel : ℕ) : List ℝ × List ℝ :=
  tryGuessesCalls P X T r C fuel s_list

/-- Inside one guess's loop, every pricing-model invocation happens at a
positive volatility, and every division is by a vega of at least `0.001`. -/
theorem newtonLoopCalls_pos (P X T r C : ℝ) :
    ∀ (fuel : ℕ) (s err : ℝ),
      (∀ x ∈ (newtonLoopCalls P X T r C fuel s err).1, 0 < x) ∧
      (∀ w ∈ (newtonLoopCalls P X T r C fuel s err).2, 0.001 ≤ w) := by
  intro fuel
  induction fuel with
  | zero =>
    intro s err
    constructor <;> intro x hx <;> simp [newtonLoopCalls] at hx
  | succ n ih =>
    intro s err
    by_cases hc : err < good_bound
    · constructor <;> intro x hx <;> simp [newtonLoopCalls, hc] at hx
    · by_cases hb : bad_bound ≤ err ∨ s ≤ 0
      · constructor <;> intro x hx <;> simp [newtonLoopCalls, hc, hb] at hx
      · have hs : 0 < s := by
          push_neg at hb
          exact hb.2
        by_cases hv : vega P X T r s < 0.001
        · constructor <;> intro x hx <;>
            simp [newtonLoopCalls, hc, hb, hv] at hx
          · exact hx ▸ hs
        · constructor <;> intro x hx <;>
            simp only [newtonLoopCalls, if_neg hc, if_neg hb, if_neg hv,
              List.mem_cons] at hx
          · rcases hx with rfl | hx
            · exact hs
            · exact (ih _ _).1 x hx
          · rcases hx with rfl | hx
            · exact not_lt.1 hv
            · exact (ih _ _).2 x hx

/-- Lifting `newtonLoopCalls_pos` over the guess scan. -/
theorem tryGuessesCalls_pos (P X T r C : ℝ) (fuel : ℕ) :
    ∀ L : List ℝ,
      (∀ x ∈ (tryGuessesCalls P X T r C fuel L).1, 0 < x) ∧
      (∀ w ∈ (tryGuessesCalls P X T r C fuel L).2, 0.001 ≤ w) := by
  intro L
  induction L with
  | nil =>
    constructor <;> intro x hx <;> simp [tryGuessesCalls] at hx
  | cons g rest ih =>
    cases hres : newtonLoop P X T r C fuel g 1 with
    | failure =>
      constructor <;> intro x hx <;>
        simp only [tryGuessesCalls, hres, List.mem_append] at hx
      · rcases hx with hx | hx
        · exact (newtonLoopCalls_pos P X T r C fuel g 1).1 x hx
        · exact ih.1 x hx
      · rcases hx with hx | hx
        · exact (newtonLoopCalls_pos P X T r C fuel g 1).2 x hx
        · exact ih.2 x hx
    | success v =>
      constructor <;> intro x hx <;>
        simp only [tryGuessesCalls, hres] at hx
      · exact (newtonLoopCalls_pos P X T r C fuel g 1).1 x hx
      · exact (newtonLoopCalls_pos P X T r C fuel g 1).2 x hx
    | timeout =>
      constructor <;> intro x hx <;>
        simp only [tryGuessesCalls, hres] at hx
      · exact (newtonLoopCalls_pos P X T r C fuel g 1).1 x hx
      · exact (newtonLoopCalls_pos P X T r C fuel g 1).2 x hx

theorem getElem?_s_list_mem {i : ℕ} {a : ℝ} (h : s_list[i]? = some a) :
    a ∈ s_list := by
  obtain ⟨hlt, rfl⟩ := List.getElem?_eq_some_iff.mp h
  exact List.getElem_mem hlt

/-! ## The claims -/

/-- Claim C2: for all `P>0`, `X>0`, `T>0`, real `r` and `s>0`, the pricing
model computes exactly `d1 = (ln(P/X) + (r + s²/2)·T) / (s·√T)`,
`d2 = d1 − s·√T`, and call price `P·Φ(d1) − X·e^(−r·T)·Φ(d2)` where `Φ`
(`normCdf`) is the standard normal cumulative distribution function; the
embedding is a pure function, so there are no side effects. -/
theorem pricing_model_formulas (P X T r s : ℝ)
    (_hP : 0 < P) (_hX : 0 < X) (_hT : 0 < T) (_hs : 0 < s) :
    (d P X T r s).1 = (Real.log (P / X) + (r + s ^ 2 / 2) * T) / (s * Real.sqrt T) ∧
    (d P X T r s).2 = (d P X T r s).1 - s * Real.sqrt T ∧
    call P X T r s =
      P * normCdf ((Real.log (P / X) + (r + s ^ 2 / 2) * T) / (s * Real.sqrt T)) -
        X * Real.exp (-r * T) *
          normCdf ((Real.log (P / X) + (r + s ^ 2 / 2) * T) / (s * Real.sqrt T) -
            s * Real.sqrt T) :=
  ⟨rfl, rfl, rfl⟩

/-- Witness for C2 at the concrete input `P=100, X=100, T=1, r=0.0285, s=0.2`. -/
theorem pricing_model_formulas_witness :
    (d 100 100 1 (285/10000) (1/5)).2 =
      (d 100 100 1 (285/10000) (1/5)).1 - (1/5) * Real.sqrt 1 :=
  (pricing_model_formulas 100 100 1 (285/10000) (1/5)
    (by norm_num) (by norm_num) (by norm_num) (by norm_num)).2.1

/-- Claim C5: the divergence conditions `|priceError| ≥ 100` (as the loop
variable `err`), `s ≤ 0`, and `vega < 0.001` are checked before each
Newton update; if one holds the guess is aborted (the loop returns
`failure`, with no exception and no output) and the guess scan advances
to the next guess in the sequence. -/
theorem divergence_checks :
    (∀ (P X T r C s err : ℝ) (fuel : ℕ), good_bound ≤ err →
        bad_bound ≤ err ∨ s ≤ 0 →
        newtonLoop P X T r C (fuel + 1) s err = .failure) ∧
    (∀ (P X T r C s err : ℝ) (fuel : ℕ), good_bound ≤ err →
        ¬(bad_bound ≤ err ∨ s ≤ 0) → vega P X T r s < 0.001 →
        newtonLoop P X T r C (fuel + 1) s err = .failure) ∧
    (∀ (P X T r C g : ℝ) (fuel : ℕ) (rest : List ℝ),
        newtonLoop P X T r C fuel g 1 = .failure →
        tryGuesses P X T r C fuel (g :: rest) = tryGuesses P X T r C fuel rest) :=
  ⟨fun P X T r C s err fuel hg hb => newtonLoop_fail_of_bad P X T r C s err fuel hg hb,
   fun P X T r C s err fuel hg hb hv =>
     newtonLoop_fail_of_vega P X T r C s err fuel hg hb hv,
   fun P X T r C g fuel rest h => tryGuesses_cons_failure P X T r C g fuel rest h⟩

/-- Witness for C5: explosion abort at `err = 200`, flat-vega abort at
`P = 1/1000`, and advancing past an aborted guess. -/
theorem divergence_checks_witness :
    newtonLoop 1 1 1 0 0 1 1 200 = .failure ∧
    newtonLoop (1/1000) 1 1 0 0 1 1 1 = .failure ∧
    tryGuesses (1/1000) 1 1 0 0 1 [1/2] = tryGuesses (1/1000) 1 1 0 0 1 [] := by
  have hv : ∀ s : ℝ, vega (1/1000) 1 1 0 s < 0.001 := fun s =>
    vega_small (1/1000) 1 1 0 s (by rw [Real.sqrt_one]; norm_num)
  have hb1 : ¬(bad_bound ≤ (1:ℝ) ∨ (1:ℝ) ≤ 0) := by
    rintro (h | h)
    · rw [bad_bound] at h; linarith
    · linarith
  refine ⟨?_, ?_, ?_⟩
  · exact divergence_checks.1 1 1 1 0 0 1 200 0
      (by rw [good_bound]; norm_num) (Or.inl (by rw [bad_bound]; norm_num))
  · exact divergence_checks.2.1 (1/1000) 1 1 0 0 1 1 0
      (by rw [good_bound]; norm_num) hb1 (hv 1)
  · refine divergence_checks.2.2 (1/1000) 1 1 0 0 (1/2) 1 [] ?_
    have hb2 : ¬(bad_bound ≤ (1:ℝ) ∨ (1/2:ℝ) ≤ 0) := by
      rintro (h | h)
      · rw [bad_bound] at h; linarith
      · linarith
    exact newtonLoop_fail_of_vega (1/1000) 1 1 0 0 (1/2) 1 0
      (by rw [good_bound]; norm_num) hb2 (hv (1/2))

/-- Claim C6: if every starting guess's iteration diverges, `call_iv`
returns the sentinel `0`; no exception is raised (the function is total
and returns a value), and the return value does not record which
divergence condition caused each abort — every divergence produces the
same `failure` outcome, and exhaustion always yields the same `0`. -/
theorem exhaustion_returns_zero (P X T r C : ℝ) (fuel : ℕ)
    (h : ∀ g ∈ s_list, newtonLoop P X T r C fuel g 1 = .failure) :
    call_iv P X T r C fuel = some 0 :=
  tryGuesses_all_failure P X T r C fuel s_list h

/-- Witness for C6: at `P = 1/1000` every guess aborts on the vega check
and the solver returns `0`. -/
theorem exhaustion_returns_zero_witness :
    call_iv (1/1000) 1 1 0 0 1 = some 0 := by
  apply exhaustion_returns_zero
  intro g hg
  have hb : ¬(bad_bound ≤ (1:ℝ) ∨ g ≤ 0) := by
    rintro (h | h)
    · rw [bad_bound] at h; linarith
    · exact absurd h (not_le.2 (s_list_pos g hg))
  exact newtonLoop_fail_of_vega (1/1000) 1 1 0 0 g 1 0
    (by rw [good_bound]; norm_num) hb
    (vega_small (1/1000) 1 1 0 g (by rw [Real.sqrt_one]; norm_num))

/-- Claim C9: for every input (indeed for all real parameters), the solver
invokes the pricing model (`call`, `d`, `norm.pdf`) only at positive
candidate volatilities, and every division performed by the Newton update
is by a vega value that was first confirmed to be at least `0.001` — in
particular never by zero. -/
theorem solver_calls_positive (P X T r C : ℝ) (fuel : ℕ) :
    List.Forall (fun x => 0 < x) (call_ivCalls P X T r C fuel).1 ∧
    List.Forall (fun w => 0.001 ≤ w) (call_ivCalls P X T r C fuel).2 :=
  ⟨List.forall_iff_forall_mem.2 (tryGuessesCalls_pos P X T r C fuel s_list).1,
   List.forall_iff_forall_mem.2 (tryGuessesCalls_pos P X T r C fuel s_list).2⟩

/-- Claim C10: `d`, `call` and `call_iv` are deterministic pure functions —
two invocations with identical inputs yield identical outputs (there is no
hidden state: in the embedding they are functions of their arguments
only). -/
theorem solver_deterministic (P X T r s C P' X' T' r' s' C' : ℝ) (fuel fuel' : ℕ)
    (hP : P = P') (hX : X = X') (hT : T = T') (hr : r = r')
    (hs : s = s') (hC : C = C') (hf : fuel = fuel') :
    d P X T r s = d P' X' T' r' s' ∧
    call P X T r s = call P' X' T' r' s' ∧
    call_iv P X T r C fuel = call_iv P' X' T' r' C' fuel' := by
  subst hP hX hT hr hs hC hf
  exact ⟨rfl, rfl, rfl⟩

/-- Witness for C10 at a concrete repeated invocation. -/
theorem solver_deterministic_witness :
    call_iv 100 90 1 (285/10000) 5 7 = call_iv 100 90 1 (285/10000) 5 7 :=
  (solver_deterministic 100 90 1 (285/10000) (1/5) 5 100 90 1 (285/10000) (1/5) 5
    7 7 rfl rfl rfl rfl rfl rfl rfl).2.2

/-- Claim C3 as stated is false at concrete indices: the second guess is
`0.075`, not `0.055` (the list steps by `0.025`, five times the claimed
`0.005`), and `1.50` is not a guess at all — the largest guess is
`1.475` (at index 57). -/
theorem guess_list_cex :
    s_list[1]? = some (0.075 : ℝ) ∧ (0.075 : ℝ) ≠ 0.055 ∧
    s_list[57]? = some (1.475 : ℝ) ∧ (1.5 : ℝ) ∉ s_list := by
  refine ⟨?_, by norm_num, ?_, ?_⟩
  · rw [s_list_getElem? 1 (by norm_num)]
    norm_num
  · rw [s_list_getElem? 57 (by norm_num)]
    norm_num
  · intro hmem
    rw [s_list] at hmem
    obtain ⟨x, hx, hval⟩ := List.mem_map.1 hmem
    obtain ⟨j, hj, rfl⟩ := List.mem_range'.1 hx
    have hle : ((10 + 5 * j : ℕ) : ℝ) ≤ 295 := by
      push_cast
      have : (j : ℝ) ≤ 57 := by
        exact_mod_cast Nat.le_of_lt_succ hj
      linarith
    nlinarith

/-- Claim C3 amended: the initial-guess sequence is
`0.05 + 0.025·i` for `i = 0, …, 57` — i.e. `0.05, 0.075, 0.100, …, 1.475`,
stepping by `0.025` up to `1.475`, exactly 58 guesses spanning 5%–147.5% —
tried in strictly increasing order, and the solver returns the value of the
first guess whose iteration sequence converges, never comparing results
across guesses. -/
theorem guess_list_amended :
    s_list.length = 58 ∧
    (∀ i : ℕ, i < 58 → s_list[i]? = some (0.05 + 0.025 * (i : ℝ))) ∧
    (∀ i j : ℕ, i < j → j < 58 → ∀ a b : ℝ,
      s_list[i]? = some a → s_list[j]? = some b → a < b) ∧
    (∀ (P X T r C : ℝ) (fuel : ℕ) (i : ℕ) (g v : ℝ), s_list[i]? = some g →
      (∀ j, j < i → ∀ g', s_list[j]? = some g' →
        newtonLoop P X T r C fuel g' 1 = .failure) →
      newtonLoop P X T r C fuel g 1 = .success v →
      call_iv P X T r C fuel = some v) := by
  refine ⟨s_list_length, fun i hi => s_list_getElem? i hi, ?_, ?_⟩
  · intro i j hij hj a b ha hb
    rw [s_list_getElem? i (lt_trans hij hj)] at ha
    rw [s_list_getElem? j hj] at hb
    have hij' : (i : ℝ) < (j : ℝ) := by exact_mod_cast hij
    have ha' : a = 0.05 + 0.025 * (i : ℝ) := (Option.some.injEq _ _ ▸ ha).symm
    have hb' : b = 0.05 + 0.025 * (j : ℝ) := (Option.some.injEq _ _ ▸ hb).symm
    rw [ha', hb']
    linarith
  · intro P X T r C fuel i g v hg hfail hsucc
    exact tryGuesses_first_success P X T r C fuel i s_list g v hg hfail hsucc

/-- Witness for C3: the amended index formula at `i = 1`, and the
first-guess-wins behaviour at `P = X = 50, T = 1, r = 0` with observed
price `call(50,50,1,0,0.05)`: guess 0 converges at once and its value is
returned. -/
theorem guess_list_amended_witness :
    s_list[1]? = some (0.05 + 0.025 * ((1 : ℕ) : ℝ)) ∧
    call_iv 50 50 1 0 (call 50 50 1 0 0.05) 1 = some 0.05 := by
  constructor
  · exact guess_list_amended.2.1 1 (by norm_num)
  · refine guess_list_amended.2.2.2 50 50 1 0 (call 50 50 1 0 0.05) 1 0 0.05 0.05
      ?_ (fun j hj => absurd hj (Nat.not_lt_zero j)) ?_
    · rw [s_list_getElem? 0 (by norm_num)]
      norm_num
    · exact newtonLoop_exact 50 50 1 0 0.05 0 (by norm_num)
        (vega_atm_not_small 50 0.05 (by norm_num) (by norm_num)
          (by rw [abs_of_nonneg (by norm_num : (0:ℝ) ≤ 0.05)]; norm_num))

/-- Claim C1 as stated is false: at the valid input
`P = X = 1/1000, T = 1, r = 0` and `s = 1/5 ∈ [0.05, 1.50]`, vega is below
`0.001` at every guess, so every guess aborts and
`call_iv(P, X, T, r, call(P, X, T, r, s))` returns the sentinel `0`,
which is not within `1e-4` of `1/5`. -/
theorem roundtrip_cex :
    (0:ℝ) < 1/1000 ∧ (0.05 : ℝ) ≤ 1/5 ∧ (1/5 : ℝ) ≤ 1.5 ∧
    call_iv (1/1000) (1/1000) 1 0 (call (1/1000) (1/1000) 1 0 (1/5)) 1 = some 0 ∧
    ¬ |(0 : ℝ) - 1/5| ≤ 1/10000 := by
  refine ⟨by norm_num, by norm_num, by norm_num, ?_, ?_⟩
  · apply tryGuesses_all_failure
    intro g hg
    have hb : ¬(bad_bound ≤ (1:ℝ) ∨ g ≤ 0) := by
      rintro (h | h)
      · rw [bad_bound] at h; linarith
      · exact absurd h (not_le.2 (s_list_pos g hg))
    exact newtonLoop_fail_of_vega (1/1000) (1/1000) 1 0 _ g 1 0
      (by rw [good_bound]; norm_num) hb
      (vega_small (1/1000) (1/1000) 1 0 g (by rw [Real.sqrt_one]; norm_num))
  · rw [zero_sub, abs_neg, abs_of_nonneg (by norm_num : (0:ℝ) ≤ 1/5)]
    norm_num

/-- Claim C1 amended: the round trip recovers the volatility exactly —
`call_iv (P, X, T, r, call(P, X, T, r, s)) = s`, a fortiori within `1e-4` —
whenever `s` is one of the 58 guesses, the vega check passes at `s`, and
every earlier guess's iteration diverges.  (The counterexample forces the
restriction: on inputs where every guess diverges, e.g. vanishing vega,
the solver returns the sentinel `0` instead.) -/
theorem roundtrip_amended (P X T r : ℝ) (fuel i : ℕ) (s : ℝ)
    (hfuel : 1 ≤ fuel)
    (hs : s_list[i]? = some s)
    (hv : ¬ vega P X T r s < 0.001)
    (hfail : ∀ j, j < i → ∀ g', s_list[j]? = some g' →
        newtonLoop P X T r (call P X T r s) fuel g' 1 = .failure) :
    call_iv P X T r (call P X T r s) fuel = some s ∧ |s - s| ≤ 1/10000 := by
  constructor
  · have hpos : 0 < s := s_list_pos s (getElem?_s_list_mem hs)
    obtain ⟨m, rfl⟩ : ∃ m, fuel = m + 1 := ⟨fuel - 1, by omega⟩
    exact tryGuesses_first_success P X T r (call P X T r s) (m + 1) i s_list s s
      hs hfail (newtonLoop_exact P X T r s m hpos hv)
  · simp

/-- Witness for C1 at `P = X = 100, T = 1, r = 0, s = 0.05` (the first
guess): pricing then inverting returns exactly `0.05`. -/
theorem roundtrip_amended_witness :
    call_iv 100 100 1 0 (call 100 100 1 0 0.05) 1 = some 0.05 :=
  (roundtrip_amended 100 100 1 0 1 0 0.05 (le_refl 1)
    (by rw [s_list_getElem? 0 (by norm_num)]; norm_num)
    (vega_atm_not_small 100 0.05 (by norm_num) (by norm_num)
      (by rw [abs_of_nonneg (by norm_num : (0:ℝ) ≤ 0.05)]; norm_num))
    (fun j hj => absurd hj (Nat.not_lt_zero j))).1

/-- Claim C4 as stated is false: with observed price
`C = call(100,100,1,0,0.05) − 5·10⁻⁷`, the very first guess `0.05`
computes `|priceError| = 5·10⁻⁷ < 0.000001`, yet the solver does not
return that candidate `0.05` — it performs one more Newton update first
and returns `0.05 − 5·10⁻⁷ / vega(0.05)`, which differs from `0.05`. -/
theorem convergence_return_cex :
    |call 100 100 1 0 0.05 - (call 100 100 1 0 0.05 - 5/10^7)| < 0.000001 ∧
    call_iv 100 100 1 0 (call 100 100 1 0 0.05 - 5/10^7) 1 =
      some (0.05 - (5/10^7) / vega 100 100 1 0 0.05) ∧
    0.05 - (5/10^7) / vega 100 100 1 0 0.05 ≠ 0.05 := by
  have hvega : ¬ vega 100 100 1 0 0.05 < 0.001 :=
    vega_atm_not_small 100 0.05 (by norm_num) (by norm_num)
      (by rw [abs_of_nonneg (by norm_num : (0:ℝ) ≤ 0.05)]; norm_num)
  have hvpos : 0 < vega 100 100 1 0 0.05 := by
    rw [vega_atm 100 0.05 (by norm_num) (by norm_num)]
    exact mul_pos (by norm_num) (normPdf_pos _)
  have hdiff : call 100 100 1 0 0.05 - (call 100 100 1 0 0.05 - 5/10^7)
      = (5/10^7 : ℝ) := sub_sub_cancel _ _
  refine ⟨?_, ?_, ?_⟩
  · rw [hdiff, abs_of_nonneg (by norm_num : (0:ℝ) ≤ 5/10^7)]
    norm_num
  · refine tryGuesses_first_success 100 100 1 0 _ 1 0 s_list 0.05 _
      (by rw [s_list_getElem? 0 (by norm_num)]; norm_num)
      (fun j hj => absurd hj (Nat.not_lt_zero j)) ?_
    have hb : ¬(bad_bound ≤ (1:ℝ) ∨ (0.05:ℝ) ≤ 0) := by
      rintro (h | h)
      · rw [bad_bound] at h; linarith
      · linarith
    rw [show (1:ℕ) = 0 + 1 from rfl,
      newtonLoop_step 100 100 1 0 _ 0.05 1 0 (by rw [good_bound]; norm_num)
        hb hvega,
      hdiff, abs_of_nonneg (by norm_num : (0:ℝ) ≤ 5/10^7)]
    exact newtonLoop_of_lt_good _ _ _ _ _ _ _ _ (by rw [good_bound]; norm_num)
  · intro h
    have hq : (0:ℝ) < (5/10^7 : ℝ) / vega 100 100 1 0 0.05 :=
      div_pos (by norm_num) hvpos
    have : (5/10^7 : ℝ) / vega 100 100 1 0 0.05 = 0 := by linarith
    exact absurd this (ne_of_gt hq)

/-- Claim C4 amended: when the computed `|priceError|` at a candidate
falls below `0.000001`, the loop still performs the pending Newton update
and only then exits: every successful exit returns
`s' − priceError(s')/vega(s')` for a candidate `s' > 0` with
`|call(s') − C| < 0.000001` and `vega(s') ≥ 0.001`.  It is the pre-update
candidate, not the returned value, that is guaranteed to satisfy the
tolerance. -/
theorem convergence_return_amended (P X T r C : ℝ) (fuel : ℕ) (g v : ℝ)
    (h : newtonLoop P X T r C fuel g 1 = .success v) :
    ∃ s', 0 < s' ∧ |call P X T r s' - C| < good_bound ∧
      ¬ vega P X T r s' < 0.001 ∧
      v = s' - (call P X T r s' - C) / vega P X T r s' :=
  newtonLoop_success_shape P X T r C fuel g 1 v (by rw [good_bound]; norm_num) h

/-- Witness for C4 at the exact-price input `P = X = 100, T = 1, r = 0`,
`C = call(100,100,1,0,0.05)`, where guess `0.05` converges to itself. -/
theorem convergence_return_amended_witness :
    ∃ s', 0 < s' ∧
      |call 100 100 1 0 s' - call 100 100 1 0 0.05| < good_bound ∧
      ¬ vega 100 100 1 0 s' < 0.001 ∧
      (0.05 : ℝ) = s' - (call 100 100 1 0 s' - call 100 100 1 0 0.05) /
        vega 100 100 1 0 s' :=
  convergence_return_amended 100 100 1 0 (call 100 100 1 0 0.05) 1 0.05 0.05
    (newtonLoop_exact 100 100 1 0 0.05 0 (by norm_num)
      (vega_atm_not_small 100 0.05 (by norm_num) (by norm_num)
        (by rw [abs_of_nonneg (by norm_num : (0:ℝ) ≤ 0.05)]; norm_num)))

end ImpliedVol
